import Mathlib

/-!
Shallow embedding of `src/Array.h` (namespace `abouttt`), a growable
contiguous array `Array<T>` with manual buffer management.

Modelling conventions:
* The raw buffer `mData` (of `mCapacity` allocated slots) is modelled as a
  `List α` of length `mCapacity`; the first `mCount` slots are the live
  elements.  Uninitialized or destroyed slots are represented by the
  `default` value of an `Inhabited` instance (their content is never
  observable through the public API).
* `size_t` indices and counts are modelled as `Nat`; the sentinel
  `INDEX_NONE = std::numeric_limits<size_t>::max()` is the literal
  `2 ^ 64 - 1`.
* A C++ member function that can throw is modelled as returning
  `Option OpError × CppArray α`: the error (if any) together with the state
  of the object when the function returns or the exception escapes.
  `::operator new` failure (`std::bad_alloc`) is modelled by the `allocOk`
  argument of the operations that may allocate.
* Value moves (`std::move` of a `T`) are modelled as copies: every
  moved-from slot is either overwritten or beyond the live region
  afterwards, so the values of live slots are not affected by this choice.
* The one place the source program performs undefined behaviour
  (`insertImpl` with `index < mCount` and `count > mCount - index` runs
  `std::uninitialized_move_n` from `mData + mCount - count`, which
  underflows in `size_t`, and `std::move_backward` over an inverted
  range) is marked by the dedicated error value
  `OpError.undefinedBehavior`; the accompanying state is the state the
  object had when the undefined operation was reached.
-/

namespace Abouttt

/-- Outcomes of a member call that does not return normally:
`indexOutOfRange` models `throw std::out_of_range` from `checkRange`,
`allocFail` models `std::bad_alloc` from `::operator new`, and
`undefinedBehavior` marks the executions on which the C++ source runs
into undefined behaviour (see the file comment). -/
inductive OpError where
  | indexOutOfRange
  | allocFail
  | undefinedBehavior
deriving DecidableEq

/-- The state of an `abouttt::Array<T>`: `buf` is the allocated buffer
(`mData[0] .. mData[mCapacity-1]`), `mCount` and `mCapacity` are the
corresponding size members, and `hasBuffer` records whether `mData` is
non-null. -/
structure CppArray (α : Type) where
  buf : List α
  mCount : Nat
  mCapacity : Nat
  hasBuffer : Bool
deriving DecidableEq

variable {α : Type}

/-- The live elements of the array: slots `[0, mCount)` of the buffer. -/
def elems (a : CppArray α) : List α := a.buf.take a.mCount

/-- `mData[i]` (meaningful for `i < mCapacity`). -/
def slot [Inhabited α] (a : CppArray α) (i : Nat) : α := a.buf.getD i default

/-- `Array::INDEX_NONE = std::numeric_limits<size_t>::max()`. -/
def INDEX_NONE : Nat := 2 ^ 64 - 1

/-- Net effect of writing the values `vals` into consecutive slots
starting at `start` (used for `std::uninitialized_copy_n`,
`std::uninitialized_move_n`, `std::move`, `std::move_backward` and
`std::uninitialized_fill_n`, each of which reads its whole source before
the destination overlap matters, in the direction it iterates). -/
def setSlots (buf : List α) (start : Nat) (vals : List α) : List α :=
  buf.take start ++ vals ++ buf.drop (start + vals.length)

/-- The values of the `n` consecutive slots starting at `start`. -/
def readSlots (buf : List α) (start n : Nat) : List α :=
  (buf.drop start).take n

/-- `Array(size_t capacity)`: allocates `capacity` raw slots
(`nullptr` when `capacity == 0`), `mCount = 0`.  `Array()` is
`mkSized 0`. -/
def mkSized [Inhabited α] (capacity : Nat) : CppArray α :=
  { buf := List.replicate capacity default
    mCount := 0
    mCapacity := capacity
    hasBuffer := decide (0 < capacity) }

/-- `Array(std::initializer_list<T>)`: allocates exactly `ilist.size()`
slots and copies the list into them.  The copy constructor
`Array(const Array& other)` produces the same state from
`elems other`. -/
def ofIlist (l : List α) : CppArray α :=
  { buf := l
    mCount := l.length
    mCapacity := l.length
    hasBuffer := decide (0 < l.length) }

/-- `Array::cleanup()`: if `mData` is non-null, destroy the live elements,
free the buffer and zero all members; otherwise do nothing. -/
def cleanup (a : CppArray α) : CppArray α :=
  if a.hasBuffer then
    { buf := [], mCount := 0, mCapacity := 0, hasBuffer := false }
  else a

/-- The capacity `Array::ensureCapacity` grows to when `minCapacity`
exceeds the current capacity:
`std::max(minCapacity, mCapacity == 0 ? 8 : mCapacity + (mCapacity >> 1))`. -/
def grownCapacity (a : CppArray α) (minCapacity : Nat) : Nat :=
  max minCapacity (if a.mCapacity = 0 then 8 else a.mCapacity + a.mCapacity / 2)

/-- `Array::reallocate(newCapacity)`.  `allocOk` tells whether the
`::operator new` call (reached only when `newCapacity` differs from the
current capacity and is non-zero) succeeds; on failure the exception
escapes before any member is modified.  When the old buffer exists its
first `min mCount newCapacity` elements are moved into the new buffer;
the remaining new slots are uninitialized (`default`). -/
def reallocate [Inhabited α] (allocOk : Bool) (a : CppArray α) (newCapacity : Nat) :
    Option OpError × CppArray α :=
  if newCapacity = a.mCapacity then (none, a)
  else if newCapacity = 0 then (none, cleanup a)
  else if allocOk = false then (some OpError.allocFail, a)
  else
    let newCount := min a.mCount newCapacity
    (none,
      { buf := a.buf.take newCount ++ List.replicate (newCapacity - newCount) default
        mCount := newCount
        mCapacity := newCapacity
        hasBuffer := true })

/-- `Array::ensureCapacity(minCapacity)`. -/
def ensureCapacity [Inhabited α] (allocOk : Bool) (a : CppArray α) (minCapacity : Nat) :
    Option OpError × CppArray α :=
  if a.mCapacity < minCapacity then reallocate allocOk a (grownCapacity a minCapacity)
  else (none, a)

/-- `Array::EmplaceAt(index, args...)` (also `Insert(index, value)` and,
via `Emplace`/`Add`, appending): `checkRange(index, true)` throws when
`index >= mCount + 1`; otherwise grow, shift the tail right by one
(`uninitialized_move_n` of the last element, then `move_backward`) and
construct the new element at `index`. -/
def emplaceAt [Inhabited α] (allocOk : Bool) (a : CppArray α) (index : Nat) (v : α) :
    Option OpError × CppArray α :=
  if a.mCount + 1 ≤ index then (some OpError.indexOutOfRange, a)
  else
    match ensureCapacity allocOk a (a.mCount + 1) with
    | (some e, a1) => (some e, a1)
    | (none, a1) =>
      let buf1 :=
        if index < a1.mCount then
          let b := setSlots a1.buf a1.mCount (readSlots a1.buf (a1.mCount - 1) 1)
          setSlots b (index + 1) (readSlots b index (a1.mCount - 1 - index))
        else a1.buf
      (none, { a1 with buf := setSlots buf1 index [v], mCount := a1.mCount + 1 })

/-- `Array::insertImpl(index, ptr, count)` (the bulk-insert backend of
`Insert(index, const Array&)`, `Insert(index, Array&&)`,
`Insert(index, ilist)`, `Insert(index, ptr, count)` and the `Append`
overloads).  When `index < mCount` and `mCount < index + count` the
source runs `std::uninitialized_move_n(mData + mCount - count, count,
mData + mCount)` with `mCount - count` computed in `size_t` —
underflowing or landing below `index` — and `std::move_backward` over
the inverted range `[mData + index, mData + mCount - count)`: undefined
behaviour, reported here as `OpError.undefinedBehavior` with the state
at that point. -/
def insertImpl [Inhabited α] (allocOk : Bool) (a : CppArray α) (index : Nat) (src : List α) :
    Option OpError × CppArray α :=
  if a.mCount + 1 ≤ index then (some OpError.indexOutOfRange, a)
  else if src.length = 0 then (none, a)
  else
    match ensureCapacity allocOk a (a.mCount + src.length) with
    | (some e, a1) => (some e, a1)
    | (none, a1) =>
      if index < a1.mCount then
        if a1.mCount < index + src.length then (some OpError.undefinedBehavior, a1)
        else
          let b1 := setSlots a1.buf a1.mCount
            (readSlots a1.buf (a1.mCount - src.length) src.length)
          let b2 := setSlots b1 (index + src.length)
            (readSlots b1 index (a1.mCount - src.length - index))
          (none, { a1 with buf := setSlots b2 index src, mCount := a1.mCount + src.length })
      else
        (none, { a1 with buf := setSlots a1.buf index src, mCount := a1.mCount + src.length })

/-- `Array::Add` / `Array::Emplace`: insert at the end. -/
def add [Inhabited α] (allocOk : Bool) (a : CppArray α) (v : α) :
    Option OpError × CppArray α :=
  emplaceAt allocOk a a.mCount v

/-- `Array::operator[]` (bounds-checked element access). -/
def getAt [Inhabited α] (a : CppArray α) (index : Nat) : Except OpError α :=
  if a.mCount ≤ index then Except.error OpError.indexOutOfRange
  else Except.ok (slot a index)

/-- `Array::RemoveAt(index)`: `checkRange(index)` throws when
`index >= mCount`; otherwise destroy the element and `std::move` the
tail left by one. -/
def removeAt (a : CppArray α) (index : Nat) : Option OpError × CppArray α :=
  if a.mCount ≤ index then (some OpError.indexOutOfRange, a)
  else
    let b :=
      if index < a.mCount - 1 then
        setSlots a.buf index (readSlots a.buf (index + 1) (a.mCount - (index + 1)))
      else a.buf
    (none, { a with buf := b, mCount := a.mCount - 1 })

/-- `Array::Clear()`: destroy the live elements; capacity and buffer are
kept. -/
def clear (a : CppArray α) : CppArray α := { a with mCount := 0 }

/-- Position of the first element equal to `v`, as computed by
`std::find(mData, mData + mCount, value)` (`none` = iterator `end`). -/
def findPos [DecidableEq α] (v : α) : List α → Option Nat
  | [] => none
  | x :: xs => if x = v then some 0 else (findPos v xs).map (· + 1)

/-- `Array::Find(value)`: index of the first match, `INDEX_NONE` when the
scan reaches the end. -/
def find [DecidableEq α] (a : CppArray α) (v : α) : Nat :=
  match findPos v (elems a) with
  | some i => i
  | none => INDEX_NONE

/-- The loop of `Array::FindLast(value)`: `for (size_t i = mCount; i-- > 0;)
if (mData[i] == value) return i;`. -/
def findLastLoop [Inhabited α] [DecidableEq α] (a : CppArray α) (v : α) : Nat → Nat
  | 0 => INDEX_NONE
  | i + 1 => if slot a i = v then i else findLastLoop a v i

/-- `Array::FindLast(value)`. -/
def findLast [Inhabited α] [DecidableEq α] (a : CppArray α) (v : α) : Nat :=
  findLastLoop a v a.mCount

/-- `Array::Remove(value)`: `Find` then `RemoveAt` when a match exists. -/
def removeValue [DecidableEq α] (a : CppArray α) (v : α) : Option OpError × CppArray α :=
  let index := find a v
  if index ≠ INDEX_NONE then removeAt a index else (none, a)

/-- `Array::RemoveAll(pred)`: `std::remove_if` compacts the retained
elements to the front (their relative order preserved), the tail is
destroyed and `mCount` shrinks accordingly; the values left in the dead
tail slots are unspecified in C++ and irrelevant here. -/
def removeAllP (a : CppArray α) (p : α → Bool) : CppArray α :=
  let kept := (elems a).filter (fun x => !(p x))
  if kept.length = a.mCount then a
  else { a with buf := setSlots a.buf 0 kept, mCount := kept.length }

/-- `Array::Reserve(newCapacity)`: grow-only reallocation. -/
def reserve [Inhabited α] (allocOk : Bool) (a : CppArray α) (newCapacity : Nat) :
    Option OpError × CppArray α :=
  if a.mCapacity < newCapacity then reallocate allocOk a newCapacity else (none, a)

/-- `Array::Resize(newCount, value)`: grow (ensure capacity, fill the new
tail with `value`) or shrink (destroy the excess tail); `mCount` becomes
`newCount`. -/
def resize [Inhabited α] (allocOk : Bool) (a : CppArray α) (newCount : Nat) (v : α) :
    Option OpError × CppArray α :=
  if a.mCount < newCount then
    match ensureCapacity allocOk a newCount with
    | (some e, a1) => (some e, a1)
    | (none, a1) =>
      (none,
        { a1 with
          buf := setSlots a1.buf a1.mCount (List.replicate (newCount - a1.mCount) v)
          mCount := newCount })
  else (none, { a with mCount := newCount })

/-- `Array::Shrink()`: reallocate to exactly `mCount` when capacity
exceeds it. -/
def shrink [Inhabited α] (allocOk : Bool) (a : CppArray α) : Option OpError × CppArray α :=
  if a.mCount < a.mCapacity then reallocate allocOk a a.mCount else (none, a)

/-- Whether `reallocate(newCapacity)` reaches its `::operator new` call
(it returns early when the capacity is unchanged, and `newCapacity == 0`
only frees). -/
def reallocPerformsAlloc (a : CppArray α) (newCapacity : Nat) : Bool :=
  decide (newCapacity ≠ a.mCapacity) && decide (newCapacity ≠ 0)

/-- Whether a call to `Shrink()` performs an allocation. -/
def shrinkAllocates (a : CppArray α) : Bool :=
  decide (a.mCount < a.mCapacity) && reallocPerformsAlloc a a.mCount

/-- `Array(Array&& other)`: the destination steals `mData`, `mCount`,
`mCapacity` (via `std::exchange`); the source is left with a null buffer
and zero count/capacity.  Result: `(destination, source after the move)`. -/
def moveCtor (a : CppArray α) : CppArray α × CppArray α :=
  ({ buf := a.buf, mCount := a.mCount, mCapacity := a.mCapacity, hasBuffer := a.hasBuffer },
   { buf := [], mCount := 0, mCapacity := 0, hasBuffer := false })

/-- `Array::operator=(Array&& other)` with `this != &other`: `cleanup()`
the destination (its old state is discarded entirely), then steal the
source's members.  Result: `(destination, source after the move)`. -/
def moveAssign (dst src : CppArray α) : CppArray α × CppArray α :=
  ({ buf := src.buf, mCount := src.mCount, mCapacity := src.mCapacity,
     hasBuffer := src.hasBuffer },
   { buf := [], mCount := 0, mCapacity := 0, hasBuffer := false })

/-- `Array::Insert(index, Array&& source)` with `&source != this` (the
drain insert): `insertImpl(index, source.mData, source.mCount)` and, on
normal return, `source.Clear()`; when `insertImpl` throws, `Clear` is
not reached.  Result: `(error?, target, source)`. -/
def insertDrain [Inhabited α] (allocOk : Bool) (t : CppArray α) (index : Nat)
    (s : CppArray α) : Option OpError × CppArray α × CppArray α :=
  match insertImpl allocOk t index (elems s) with
  | (some e, t1) => (some e, t1, s)
  | (none, t1) => (none, t1, clear s)

/-- The representation invariant from the specification:
`count ≤ capacity` and the buffer pointer is null iff `capacity == 0`. -/
def Inv (a : CppArray α) : Prop :=
  a.mCount ≤ a.mCapacity ∧ (a.hasBuffer = true ↔ 0 < a.mCapacity)

/-- Full well-formedness of the model: the buffer has exactly
`mCapacity` slots, plus `Inv`. -/
def WF (a : CppArray α) : Prop :=
  a.buf.length = a.mCapacity ∧ a.mCount ≤ a.mCapacity ∧
    (a.hasBuffer = true ↔ 0 < a.mCapacity)

/-- The constructor forms of `Array<T>`: `Array()` is `sized 0`,
`Array(capacity)` is `sized capacity`, `Array(ilist)` is `ilist l`, and
the copy constructor produces the same state as `ilist (elems other)`. -/
inductive CtorForm (α : Type) where
  | sized (n : Nat)
  | ilist (l : List α)

/-- The state built by a constructor form. -/
def initArray [Inhabited α] : CtorForm α → CppArray α
  | .sized n => mkSized n
  | .ilist l => ofIlist l

/-- A single public mutating (or bounds-checked reading) operation, with
its allocation outcome where the operation can allocate. -/
inductive ArrOp (α : Type) where
  | addOp (ok : Bool) (v : α)
  | emplaceOp (ok : Bool) (i : Nat) (v : α)
  | insertSeqOp (ok : Bool) (i : Nat) (src : List α)
  | removeAtOp (i : Nat)
  | removeValueOp (v : α)
  | removeAllOp (p : α → Bool)
  | clearOp
  | reserveOp (ok : Bool) (n : Nat)
  | resizeOp (ok : Bool) (n : Nat) (v : α)
  | shrinkOp (ok : Bool)
  | assignIlistOp (l : List α)
  | readAtOp (i : Nat)

/-- Execute one public operation on an array state. -/
def step [Inhabited α] [DecidableEq α] : ArrOp α → CppArray α → Option OpError × CppArray α
  | .addOp ok v, a => add ok a v
  | .emplaceOp ok i v, a => emplaceAt ok a i v
  | .insertSeqOp ok i src, a => insertImpl ok a i src
  | .removeAtOp i, a => removeAt a i
  | .removeValueOp v, a => removeValue a v
  | .removeAllOp p, a => (none, removeAllP a p)
  | .clearOp, a => (none, clear a)
  | .reserveOp ok n, a => reserve ok a n
  | .resizeOp ok n v, a => resize ok a n v
  | .shrinkOp ok, a => shrink ok a
  | .assignIlistOp l, a => (none, ofIlist l)
  | .readAtOp i, a =>
    match getAt a i with
    | .error e => (some e, a)
    | .ok _ => (none, a)

/-- All the states an array passes through while executing a sequence of
operations (the initial state included). -/
def states [Inhabited α] [DecidableEq α] (a : CppArray α) : List (ArrOp α) → List (CppArray α)
  | [] => [a]
  | op :: ops => a :: states (step op a).2 ops

theorem setSlots_length {buf vals : List α} {s : Nat} (h : s + vals.length ≤ buf.length) :
    (setSlots buf s vals).length = buf.length := by
  simp only [setSlots, List.length_append, List.length_take, List.length_drop]
  omega

theorem readSlots_length {buf : List α} {s n : Nat} (h : s + n ≤ buf.length) :
    (readSlots buf s n).length = n := by
  simp only [readSlots, List.length_take, List.length_drop]
  omega

theorem readSlots_getElem? (buf : List α) (s n i : Nat) :
    (readSlots buf s n)[i]? = if i < n then buf[s + i]? else none := by
  rw [readSlots, List.getElem?_take]
  by_cases h : i < n
  · simp [h, List.getElem?_drop]
  · simp [h]

theorem setSlots_getElem? (buf vals : List α) (s i : Nat) (hs : s + vals.length ≤ buf.length) :
    (setSlots buf s vals)[i]? =
      if i < s then buf[i]?
      else if i < s + vals.length then vals[i - s]?
      else buf[i]? := by
  have hlt : (buf.take s).length = s := by
    simp only [List.length_take]
    omega
  rw [setSlots, List.append_assoc, List.getElem?_append, hlt]
  by_cases h1 : i < s
  · simp [h1, List.getElem?_take]
  · rw [if_neg h1, if_neg h1, List.getElem?_append]
    by_cases h2 : i < s + vals.length
    · rw [if_pos (by omega), if_pos h2]
    · rw [if_neg (by omega), if_neg h2, List.getElem?_drop]
      congr 1
      omega
theorem cleanup_inv {a : CppArray α} (h : Inv a) : Inv (cleanup a) := by
  unfold cleanup
  split
  · exact ⟨Nat.le_refl 0, by simp⟩
  · exact h

theorem reallocate_some [Inhabited α] {ok : Bool} {a a1 : CppArray α} {n : Nat} {e : OpError}
    (h : reallocate ok a n = (some e, a1)) : e = OpError.allocFail ∧ a1 = a := by
  unfold reallocate at h
  split at h
  · simp at h
  · split at h
    · simp at h
    · split at h
      · obtain ⟨h1, h2⟩ := Prod.mk.injEq .. ▸ h
        exact ⟨(Option.some.injEq .. ▸ h1).symm, h2.symm⟩
      · simp at h

theorem reallocate_none_of_lt [Inhabited α] {ok : Bool} {a a1 : CppArray α} {n : Nat}
    (hlt : a.mCapacity < n) (h : reallocate ok a n = (none, a1)) :
    a1 = { buf := a.buf.take (min a.mCount n) ++ List.replicate (n - min a.mCount n) default
           mCount := min a.mCount n
           mCapacity := n
           hasBuffer := true } := by
  unfold reallocate at h
  rw [if_neg (by omega), if_neg (by omega)] at h
  split at h
  · simp at h
  · simp only [Prod.mk.injEq] at h
    exact h.2.symm

theorem reallocate_inv [Inhabited α] (ok : Bool) (a : CppArray α) (n : Nat) (h : Inv a) :
    Inv (reallocate ok a n).2 := by
  by_cases h1 : n = a.mCapacity
  · unfold reallocate
    rw [if_pos h1]
    exact h
  · by_cases h2 : n = 0
    · unfold reallocate
      rw [if_neg h1, if_pos h2]
      exact cleanup_inv h
    · by_cases h3 : ok = false
      · unfold reallocate
        rw [if_neg h1, if_neg h2, if_pos h3]
        exact h
      · have hr : (reallocate ok a n).2 =
            { buf := a.buf.take (min a.mCount n) ++
                List.replicate (n - min a.mCount n) default
              mCount := min a.mCount n
              mCapacity := n
              hasBuffer := true } := by
          unfold reallocate
          rw [if_neg h1, if_neg h2, if_neg h3]
        rw [hr]
        exact ⟨Nat.min_le_right _ _, by simp only [true_iff]; omega⟩

theorem ensureCapacity_some [Inhabited α] {ok : Bool} {a a1 : CppArray α} {m : Nat} {e : OpError}
    (h : ensureCapacity ok a m = (some e, a1)) : e = OpError.allocFail ∧ a1 = a := by
  unfold ensureCapacity at h
  split at h
  · exact reallocate_some h
  · simp at h

theorem le_grownCapacity [Inhabited α] (a : CppArray α) (m : Nat) : m ≤ grownCapacity a m :=
  le_max_left _ _

theorem ensureCapacity_none_counts [Inhabited α] {ok : Bool} {a a1 : CppArray α} {m : Nat}
    (hm : a.mCount ≤ m) (h : ensureCapacity ok a m = (none, a1)) :
    a1.mCount = a.mCount ∧ m ≤ a1.mCapacity ∧ (Inv a → Inv a1) := by
  unfold ensureCapacity at h
  split at h
  case isTrue hlt =>
    have hg := le_grownCapacity a m
    have he := reallocate_none_of_lt (lt_of_lt_of_le hlt hg) h
    subst he
    refine ⟨?_, ?_, fun _ => ⟨?_, ?_⟩⟩
    · show min a.mCount (grownCapacity a m) = a.mCount
      omega
    · exact hg
    · show min a.mCount (grownCapacity a m) ≤ grownCapacity a m
      omega
    · show true = true ↔ 0 < grownCapacity a m
      simp only [true_iff]
      omega
  case isFalse hge =>
    simp only [Prod.mk.injEq] at h
    rw [← h.2]
    exact ⟨rfl, by omega, fun hi => hi⟩
theorem insertImpl_inv [Inhabited α] (ok : Bool) (a : CppArray α) (i : Nat) (src : List α)
    (h : Inv a) : Inv (insertImpl ok a i src).2 := by
  unfold insertImpl
  split
  · exact h
  split
  · exact h
  split
  next e a1 heq =>
    obtain ⟨-, rfl⟩ := ensureCapacity_some heq
    exact h
  next a1 heq =>
    obtain ⟨hc, hcap, hinv⟩ := ensureCapacity_none_counts (Nat.le_add_right _ _) heq
    obtain ⟨hi1, hi2⟩ := hinv h
    split
    · split
      · exact ⟨hi1, hi2⟩
      · exact ⟨by show a1.mCount + src.length ≤ a1.mCapacity; omega, hi2⟩
    · exact ⟨by show a1.mCount + src.length ≤ a1.mCapacity; omega, hi2⟩

theorem removeAt_inv (a : CppArray α) (i : Nat) (h : Inv a) : Inv (removeAt a i).2 := by
  obtain ⟨h1, h2⟩ := h
  unfold removeAt
  split
  · exact ⟨h1, h2⟩
  · exact ⟨by show a.mCount - 1 ≤ a.mCapacity; omega, h2⟩

theorem removeValue_inv [DecidableEq α] (a : CppArray α) (v : α) (h : Inv a) :
    Inv (removeValue a v).2 := by
  show Inv (if find a v ≠ INDEX_NONE then removeAt a (find a v) else (none, a)).2
  split
  · exact removeAt_inv a _ h
  · exact h

theorem removeAllP_inv (a : CppArray α) (p : α → Bool) (h : Inv a) : Inv (removeAllP a p) := by
  show Inv (if ((elems a).filter (fun x => !(p x))).length = a.mCount then a
    else { a with buf := setSlots a.buf 0 ((elems a).filter (fun x => !(p x)))
                  mCount := ((elems a).filter (fun x => !(p x))).length })
  obtain ⟨h1, h2⟩ := h
  split
  · exact ⟨h1, h2⟩
  · refine ⟨?_, h2⟩
    show ((elems a).filter (fun x => !(p x))).length ≤ a.mCapacity
    have ha := List.length_filter_le (fun x => !(p x)) (elems a)
    have hb : (elems a).length ≤ a.mCount := by
      simp only [elems, List.length_take]
      omega
    omega

theorem resize_inv [Inhabited α] (ok : Bool) (a : CppArray α) (n : Nat) (v : α) (h : Inv a) :
    Inv (resize ok a n v).2 := by
  obtain ⟨h1, h2⟩ := h
  unfold resize
  split
  case isTrue hlt =>
    rcases hec : ensureCapacity ok a n with ⟨e, a1⟩
    cases e with
    | some e =>
      obtain ⟨-, rfl⟩ := ensureCapacity_some hec
      exact ⟨h1, h2⟩
    | none =>
      obtain ⟨hc, hcap, hinv⟩ := ensureCapacity_none_counts (Nat.le_of_lt hlt) hec
      exact ⟨by show n ≤ a1.mCapacity; omega, (hinv ⟨h1, h2⟩).2⟩
  case isFalse hge =>
    exact ⟨by show n ≤ a.mCapacity; omega, h2⟩
theorem emplaceAt_inv [Inhabited α] (ok : Bool) (a : CppArray α) (i : Nat) (v : α)
    (h : Inv a) : Inv (emplaceAt ok a i v).2 := by
  unfold emplaceAt
  split
  · exact h
  · rcases hec : ensureCapacity ok a (a.mCount + 1) with ⟨e, a1⟩
    cases e with
    | some e =>
      obtain ⟨-, rfl⟩ := ensureCapacity_some hec
      exact h
    | none =>
      obtain ⟨hc, hcap, hinv⟩ := ensureCapacity_none_counts (Nat.le_succ _) hec
      refine ⟨?_, (hinv h).2⟩
      show a1.mCount + 1 ≤ a1.mCapacity
      omega





theorem clear_inv (a : CppArray α) (h : Inv a) : Inv (clear a) :=
  ⟨Nat.zero_le _, h.2⟩

theorem reserve_inv [Inhabited α] (ok : Bool) (a : CppArray α) (n : Nat) (h : Inv a) :
    Inv (reserve ok a n).2 := by
  unfold reserve
  split
  · exact reallocate_inv ok a n h
  · exact h


theorem shrink_inv [Inhabited α] (ok : Bool) (a : CppArray α) (h : Inv a) :
    Inv (shrink ok a).2 := by
  unfold shrink
  split
  · exact reallocate_inv ok a a.mCount h
  · exact h

theorem ofIlist_inv (l : List α) : Inv (ofIlist l : CppArray α) :=
  ⟨Nat.le_refl _, by simp [ofIlist]⟩

theorem mkSized_inv [Inhabited α] (n : Nat) : Inv (mkSized n : CppArray α) :=
  ⟨Nat.zero_le _, by simp [mkSized]⟩

theorem step_inv [Inhabited α] [DecidableEq α] (op : ArrOp α) (a : CppArray α) (h : Inv a) :
    Inv (step op a).2 := by
  cases op with
  | addOp ok v => exact emplaceAt_inv ok a a.mCount v h
  | emplaceOp ok i v => exact emplaceAt_inv ok a i v h
  | insertSeqOp ok i src => exact insertImpl_inv ok a i src h
  | removeAtOp i => exact removeAt_inv a i h
  | removeValueOp v => exact removeValue_inv a v h
  | removeAllOp p => exact removeAllP_inv a p h
  | clearOp => exact clear_inv a h
  | reserveOp ok n => exact reserve_inv ok a n h
  | resizeOp ok n v => exact resize_inv ok a n v h
  | shrinkOp ok => exact shrink_inv ok a h
  | assignIlistOp l => exact ofIlist_inv l
  | readAtOp i =>
    show Inv (match getAt a i with | .error e => (some e, a) | .ok _ => (none, a)).2
    rcases getAt a i with e | w
    · exact h
    · exact h

theorem initArray_inv [Inhabited α] (c : CtorForm α) : Inv (initArray c) := by
  cases c with
  | sized n => exact mkSized_inv n
  | ilist l => exact ofIlist_inv l

theorem states_inv [Inhabited α] [DecidableEq α] (a : CppArray α) (ops : List (ArrOp α))
    (h : Inv a) : ∀ s ∈ states a ops, Inv s := by
  induction ops generalizing a with
  | nil =>
    intro s hs
    simp only [states, List.mem_singleton] at hs
    rw [hs]
    exact h
  | cons op ops ih =>
    intro s hs
    simp only [states, List.mem_cons] at hs
    rcases hs with rfl | hs
    · exact h
    · exact ih (step op a).2 (step_inv op a h) s hs

theorem emplaceAt_some [Inhabited α] {ok : Bool} {a a1 : CppArray α} {i : Nat} {v : α}
    {e : OpError} (h : emplaceAt ok a i v = (some e, a1)) : a1 = a := by
  unfold emplaceAt at h
  split at h
  · exact ((Prod.mk.injEq ..).mp h).2.symm
  · split at h
    next e2 aa heq =>
      obtain ⟨-, rfl⟩ := ensureCapacity_some heq
      exact ((Prod.mk.injEq ..).mp h).2.symm
    next aa heq =>
      simp at h

theorem insertImpl_some [Inhabited α] {ok : Bool} {a a1 : CppArray α} {i : Nat} {src : List α}
    {e : OpError} (h : insertImpl ok a i src = (some e, a1)) :
    e = OpError.undefinedBehavior ∨ a1 = a := by
  unfold insertImpl at h
  split at h
  · exact Or.inr ((Prod.mk.injEq ..).mp h).2.symm
  split at h
  · simp at h
  split at h
  next e2 aa heq =>
    obtain ⟨-, rfl⟩ := ensureCapacity_some heq
    exact Or.inr ((Prod.mk.injEq ..).mp h).2.symm
  next aa heq =>
    split at h
    · split at h
      · exact Or.inl (Option.some.inj ((Prod.mk.injEq ..).mp h).1).symm
      · simp at h
    · simp at h

theorem removeAt_some {a a1 : CppArray α} {i : Nat} {e : OpError}
    (h : removeAt a i = (some e, a1)) : a1 = a := by
  unfold removeAt at h
  split at h
  · exact ((Prod.mk.injEq ..).mp h).2.symm
  · simp at h

theorem removeValue_some [DecidableEq α] {a a1 : CppArray α} {v : α} {e : OpError}
    (h : removeValue a v = (some e, a1)) : a1 = a := by
  have h2 : (if find a v ≠ INDEX_NONE then removeAt a (find a v) else (none, a))
      = (some e, a1) := h
  split at h2
  · exact removeAt_some h2
  · simp at h2

theorem reallocate_pair_some [Inhabited α] {ok : Bool} {a a1 : CppArray α} {n : Nat}
    {e : OpError} (h : reallocate ok a n = (some e, a1)) : a1 = a :=
  (reallocate_some h).2

theorem reserve_some [Inhabited α] {ok : Bool} {a a1 : CppArray α} {n : Nat} {e : OpError}
    (h : reserve ok a n = (some e, a1)) : a1 = a := by
  unfold reserve at h
  split at h
  · exact reallocate_pair_some h
  · simp at h

theorem resize_some [Inhabited α] {ok : Bool} {a a1 : CppArray α} {n : Nat} {v : α} {e : OpError}
    (h : resize ok a n v = (some e, a1)) : a1 = a := by
  unfold resize at h
  split at h
  · split at h
    next e2 aa heq =>
      obtain ⟨-, rfl⟩ := ensureCapacity_some heq
      exact ((Prod.mk.injEq ..).mp h).2.symm
    next aa heq =>
      simp at h
  · simp at h

theorem shrink_some [Inhabited α] {ok : Bool} {a a1 : CppArray α} {e : OpError}
    (h : shrink ok a = (some e, a1)) : a1 = a := by
  unfold shrink at h
  split at h
  · exact reallocate_pair_some h
  · simp at h

theorem readAt_match_some [Inhabited α] {a a1 : CppArray α} {i : Nat} {e : OpError}
    (h : (match getAt a i with
          | .error e2 => (some e2, a)
          | .ok (_ : α) => (none, a)) = (some e, a1)) : a1 = a := by
  rcases hg : getAt a i with e2 | w
  · rw [hg] at h
    exact ((Prod.mk.injEq ..).mp h).2.symm
  · rw [hg] at h
    simp at h
theorem reallocate_true_fst [Inhabited α] (a : CppArray α) (n : Nat) :
    (reallocate true a n).1 = none := by
  unfold reallocate
  split
  · rfl
  split
  · rfl
  split
  next hfalse => cases hfalse
  · rfl

theorem reallocate_true_capacity [Inhabited α] (a : CppArray α) (n : Nat)
    (hlt : a.mCapacity < n) : ((reallocate true a n).2).mCapacity = n := by
  unfold reallocate
  rw [if_neg (by omega), if_neg (by omega)]
  split
  next hfalse => cases hfalse
  · rfl

/-- Claim C2: whenever an operation needs capacity beyond the current
allocation, the new capacity is
`max(required, current == 0 ? 8 : current + current/2)`; and starting from
capacity `0`, appending the nine integers `1..9` one at a time gives the
capacity progression `0 -> 8 -> 12` (capacity after each step being
`0, 8, 8, 8, 8, 8, 8, 8, 8, 12`), final count `9`, and indexed access
returns the elements in insertion order. -/
theorem C2_growth_policy :
    (∀ (a : CppArray Nat) (required : Nat), a.mCapacity < required →
        ((ensureCapacity true a required).2).mCapacity
          = max required
              (if a.mCapacity = 0 then 8 else a.mCapacity + a.mCapacity / 2)) ∧
      (states (mkSized 0 : CppArray Nat)
            [.addOp true 1, .addOp true 2, .addOp true 3, .addOp true 4, .addOp true 5,
             .addOp true 6, .addOp true 7, .addOp true 8, .addOp true 9]).map
          CppArray.mCapacity = [0, 8, 8, 8, 8, 8, 8, 8, 8, 12] ∧
      (List.foldl (fun a v => (add true a v).2) (mkSized 0 : CppArray Nat)
          [1, 2, 3, 4, 5, 6, 7, 8, 9]).mCount = 9 ∧
      (List.foldl (fun a v => (add true a v).2) (mkSized 0 : CppArray Nat)
          [1, 2, 3, 4, 5, 6, 7, 8, 9]).mCapacity = 12 ∧
      (∀ i, i < 9 →
        getAt (List.foldl (fun a v => (add true a v).2) (mkSized 0 : CppArray Nat)
          [1, 2, 3, 4, 5, 6, 7, 8, 9]) i = Except.ok (i + 1)) := by
  refine ⟨?_, by decide, by decide, by decide, ?_⟩
  case refine_2 =>
    intro i hi
    interval_cases i <;> rfl
  intro a required hlt
  unfold ensureCapacity
  rw [if_pos hlt]
  exact reallocate_true_capacity a _ (lt_of_lt_of_le hlt (le_grownCapacity a required))

/-- Witness for C2: growing an empty array to hold `5` elements allocates
the baseline capacity `max 5 8 = 8`. -/
theorem C2_growth_policy_witness :
    ((ensureCapacity true (mkSized 0 : CppArray Nat) 5).2).mCapacity
      = max 5 (if (mkSized 0 : CppArray Nat).mCapacity = 0 then 8
          else (mkSized 0 : CppArray Nat).mCapacity + (mkSized 0 : CppArray Nat).mCapacity / 2) :=
  C2_growth_policy.1 (mkSized 0) 5 (by decide)

/-- Claim C3: `IndexOutOfRange` is raised exactly when an index argument is
outside its operation's valid bound: `operator[]` and `RemoveAt` raise it iff
`i >= count`; the insertion-position argument of `Insert`/`EmplaceAt` raises
it iff `i > count`; in-bounds indices never raise it. -/
theorem C3_index_error_iff [Inhabited α] (a : CppArray α) (i : Nat) (v : α)
    (src : List α) (ok : Bool) :
    (getAt a i = Except.error OpError.indexOutOfRange ↔ a.mCount ≤ i) ∧
      ((removeAt a i).1 = some OpError.indexOutOfRange ↔ a.mCount ≤ i) ∧
      ((emplaceAt ok a i v).1 = some OpError.indexOutOfRange ↔ a.mCount < i) ∧
      ((insertImpl ok a i src).1 = some OpError.indexOutOfRange ↔ a.mCount < i) := by
  refine ⟨?_, ?_, ?_, ?_⟩
  · unfold getAt
    split
    next hge => simp [hge]
    next hlt => simp [hlt]
  · unfold removeAt
    split
    next hge => simp [hge]
    next hlt => simp [hlt]
  · unfold emplaceAt
    split
    next hge => simp; omega
    next hlt =>
      have hbound : ¬ a.mCount < i := by omega
      split
      next e2 a1 heq =>
        obtain ⟨rfl, -⟩ := ensureCapacity_some heq
        simp [hbound]
      next a1 heq => simp [hbound]
  · unfold insertImpl
    split
    next hge => simp; omega
    next hlt =>
      have hbound : ¬ a.mCount < i := by omega
      split
      · simp [hbound]
      split
      next e2 a1 heq =>
        obtain ⟨rfl, -⟩ := ensureCapacity_some heq
        simp [hbound]
      next a1 heq =>
        split
        · split
          · simp [hbound]
          · simp [hbound]
        · simp [hbound]

/-- Witness for C3 at a concrete state: on a two-element array, access at
index `2` is out of range, removal at `1` is in range, and insertion at
`2` (the end) is in range while insertion at `3` would not be. -/
theorem C3_index_error_iff_witness :
    (getAt (ofIlist [10, 20] : CppArray Nat) 2 = Except.error OpError.indexOutOfRange
        ↔ (ofIlist [10, 20] : CppArray Nat).mCount ≤ 2) ∧
      ((removeAt (ofIlist [10, 20] : CppArray Nat) 2).1 = some OpError.indexOutOfRange
        ↔ (ofIlist [10, 20] : CppArray Nat).mCount ≤ 2) ∧
      ((emplaceAt true (ofIlist [10, 20] : CppArray Nat) 2 7).1
          = some OpError.indexOutOfRange
        ↔ (ofIlist [10, 20] : CppArray Nat).mCount < 2) ∧
      ((insertImpl true (ofIlist [10, 20] : CppArray Nat) 2 [7]).1
          = some OpError.indexOutOfRange
        ↔ (ofIlist [10, 20] : CppArray Nat).mCount < 2) :=
  C3_index_error_iff (ofIlist [10, 20]) 2 7 [7] true

/-- Claim C4: every operation is atomic on failure: when a call reports
`IndexOutOfRange` or an allocation failure, the array state (count,
capacity, buffer) is exactly what it was before the call. -/
theorem C4_failure_atomicity [Inhabited α] [DecidableEq α] (op : ArrOp α) (a : CppArray α)
    (e : OpError) (he : (step op a).1 = some e)
    (hk : e = OpError.indexOutOfRange ∨ e = OpError.allocFail) :
    (step op a).2 = a := by
  rcases hst : step op a with ⟨e1, a1⟩
  rw [hst] at he
  obtain rfl : e1 = some e := he
  show a1 = a
  cases op with
  | addOp ok v => exact emplaceAt_some hst
  | emplaceOp ok i v => exact emplaceAt_some hst
  | insertSeqOp ok i src =>
    rcases insertImpl_some hst with hub | ha
    · subst hub
      rcases hk with h | h
      · cases h
      · cases h
    · exact ha
  | removeAtOp i => exact removeAt_some hst
  | removeValueOp v => exact removeValue_some hst
  | removeAllOp p =>
    injection hst with h1 h2
    cases h1
  | clearOp =>
    injection hst with h1 h2
    cases h1
  | reserveOp ok n => exact reserve_some hst
  | resizeOp ok n v => exact resize_some hst
  | shrinkOp ok => exact shrink_some hst
  | assignIlistOp l =>
    injection hst with h1 h2
    cases h1
  | readAtOp i => exact readAt_match_some hst

/-- Witness for C4: removing at index `5` of a one-element array fails with
`IndexOutOfRange` and leaves the array unchanged. -/
theorem C4_failure_atomicity_witness :
    (step (ArrOp.removeAtOp 5) (ofIlist [1] : CppArray Nat)).2 = ofIlist [1] :=
  C4_failure_atomicity (ArrOp.removeAtOp 5) (ofIlist [1]) OpError.indexOutOfRange
    (by decide) (Or.inl rfl)

/-- Claim C6: moving from an array (move construction or move assignment
into a distinct array) leaves the source with `count 0`, `capacity 0` and no
buffer, and the destination holds exactly the source's original buffer,
elements and count. -/
theorem C6_move_semantics (a b : CppArray α) :
    (moveCtor a).2.mCount = 0 ∧ (moveCtor a).2.mCapacity = 0 ∧
      (moveCtor a).2.hasBuffer = false ∧
      (moveCtor a).1 = a ∧
      (moveAssign b a).2.mCount = 0 ∧ (moveAssign b a).2.mCapacity = 0 ∧
      (moveAssign b a).2.hasBuffer = false ∧
      elems (moveAssign b a).1 = elems a ∧ (moveAssign b a).1.mCount = a.mCount :=
  ⟨rfl, rfl, rfl, rfl, rfl, rfl, rfl, rfl, rfl⟩

/-- Witness for C6 at a concrete pair of arrays. -/
theorem C6_move_semantics_witness :
    (moveCtor (ofIlist [1, 2] : CppArray Nat)).2.mCount = 0 ∧
      (moveCtor (ofIlist [1, 2] : CppArray Nat)).2.mCapacity = 0 ∧
      (moveCtor (ofIlist [1, 2] : CppArray Nat)).2.hasBuffer = false ∧
      (moveCtor (ofIlist [1, 2] : CppArray Nat)).1 = ofIlist [1, 2] ∧
      (moveAssign (mkSized 4) (ofIlist [1, 2] : CppArray Nat)).2.mCount = 0 ∧
      (moveAssign (mkSized 4) (ofIlist [1, 2] : CppArray Nat)).2.mCapacity = 0 ∧
      (moveAssign (mkSized 4) (ofIlist [1, 2] : CppArray Nat)).2.hasBuffer = false ∧
      elems (moveAssign (mkSized 4) (ofIlist [1, 2] : CppArray Nat)).1
          = elems (ofIlist [1, 2] : CppArray Nat) ∧
      (moveAssign (mkSized 4) (ofIlist [1, 2] : CppArray Nat)).1.mCount
          = (ofIlist [1, 2] : CppArray Nat).mCount :=
  C6_move_semantics (ofIlist [1, 2]) (mkSized 4)

/-- Claim C7: every public operation preserves the representation
invariant `count <= capacity` and `buffer null iff capacity == 0`; both
hold after every single step of any sequence of operations starting from
any constructor. -/
theorem C7_invariant_reachable [Inhabited α] [DecidableEq α] (c : CtorForm α)
    (ops : List (ArrOp α)) (s : CppArray α) (hs : s ∈ states (initArray c) ops) :
    s.mCount ≤ s.mCapacity ∧ (s.hasBuffer = true ↔ 0 < s.mCapacity) :=
  states_inv (initArray c) ops (initArray_inv c) s hs

/-- Witness for C7: the state reached after one append to `Array(3)`. -/
theorem C7_invariant_reachable_witness :
    ((emplaceAt true (mkSized 3 : CppArray Nat) 0 5).2).mCount
        ≤ ((emplaceAt true (mkSized 3 : CppArray Nat) 0 5).2).mCapacity ∧
      (((emplaceAt true (mkSized 3 : CppArray Nat) 0 5).2).hasBuffer = true
        ↔ 0 < ((emplaceAt true (mkSized 3 : CppArray Nat) 0 5).2).mCapacity) :=
  C7_invariant_reachable (CtorForm.sized 3) [ArrOp.emplaceOp true 0 5]
    ((emplaceAt true (mkSized 3) 0 5).2) (by decide)

/-- Claim C10: the drain insert `Insert(i, move(s))` empties only the
source's count: on a successful call the source keeps its buffer and its
capacity unchanged and only its count becomes `0`. -/
theorem C10_drain_source_keeps_buffer [Inhabited α] (ok : Bool) (t s : CppArray α) (i : Nat)
    (h : (insertDrain ok t i s).1 = none) :
    (insertDrain ok t i s).2.2.mCount = 0 ∧
      (insertDrain ok t i s).2.2.mCapacity = s.mCapacity ∧
      (insertDrain ok t i s).2.2.hasBuffer = s.hasBuffer ∧
      (insertDrain ok t i s).2.2.buf = s.buf := by
  rcases hins : insertImpl ok t i (elems s) with ⟨e1, t1⟩
  cases e1 with
  | some e =>
    have h2 : (insertDrain ok t i s).1 = some e := by
      unfold insertDrain
      rw [hins]
    rw [h2] at h
    cases h
  | none =>
    have h2 : insertDrain ok t i s = (none, t1, clear s) := by
      unfold insertDrain
      rw [hins]
    rw [h2]
    exact ⟨rfl, rfl, rfl, rfl⟩

/-- Witness for C10: appending `[2, 3]` by drain insert at the end of `[1]`
succeeds; the source ends with count `0` but keeps its 2-slot buffer. -/
theorem C10_drain_source_keeps_buffer_witness :
    (insertDrain true (ofIlist [1] : CppArray Nat) 1 (ofIlist [2, 3])).2.2.mCount = 0 ∧
      (insertDrain true (ofIlist [1] : CppArray Nat) 1 (ofIlist [2, 3])).2.2.mCapacity
          = (ofIlist [2, 3] : CppArray Nat).mCapacity ∧
      (insertDrain true (ofIlist [1] : CppArray Nat) 1 (ofIlist [2, 3])).2.2.hasBuffer
          = (ofIlist [2, 3] : CppArray Nat).hasBuffer ∧
      (insertDrain true (ofIlist [1] : CppArray Nat) 1 (ofIlist [2, 3])).2.2.buf
          = (ofIlist [2, 3] : CppArray Nat).buf :=
  C10_drain_source_keeps_buffer true (ofIlist [1]) (ofIlist [2, 3]) 1 (by decide)
/-- Claim C1 (refuted on the source, supporting the code-bug finding): the
bulk insert is not correct for every inserted length.  On the array
`[1, 2, 3]`, inserting the three elements `[9, 9, 9]` at index `1` (a valid
position, `1 <= count`) makes `insertImpl` execute
`std::uninitialized_move_n(mData + 3 - 3, 3, mData + 3)` — moving the
element at index `0`, which is below the insertion point — and then
`std::move_backward(mData + 1, mData + 0, mData + 6)` over an inverted
iterator range: undefined behaviour instead of producing
`[1, 9, 9, 9, 2, 3]`. -/
theorem C1_bulk_insert_undefined_behaviour :
    (insertImpl true (ofIlist [1, 2, 3] : CppArray Nat) 1 [9, 9, 9]).1
      = some OpError.undefinedBehavior := by
  decide

/-- Claim C5 (refuted on the source, supporting the code-bug finding): the
drain insert `t.Insert(i, move(s))` is not correct for every valid `i` and
every source.  With `t = [1]`, `i = 0`, `s = [2, 3]` the underlying
`insertImpl` call computes `mData + mCount - count = mData + (1 - 2)`,
which underflows in `size_t`: undefined behaviour instead of making `t`
equal `[2, 3, 1]`; moreover `source.Clear()` is never reached, so the
source is not emptied (its count is still `2`). -/
theorem C5_drain_insert_undefined_behaviour :
    (insertDrain true (ofIlist [1] : CppArray Nat) 0 (ofIlist [2, 3])).1
        = some OpError.undefinedBehavior ∧
      (insertDrain true (ofIlist [1] : CppArray Nat) 0 (ofIlist [2, 3])).2.2.mCount = 2 := by
  decide

/-- Claim C8: `Shrink` reallocates capacity to exactly `count` when the
capacity exceeds it and is a no-op otherwise; it is idempotent — the second
of two consecutive calls performs no reallocation and leaves the state of
the first call unchanged. -/
theorem C8_shrink_idempotent [Inhabited α] (a : CppArray α) (h : Inv a) :
    (a.mCount < a.mCapacity → ((shrink true a).2).mCapacity = a.mCount) ∧
      (¬ a.mCount < a.mCapacity → (shrink true a).2 = a) ∧
      (shrink true ((shrink true a).2)).2 = (shrink true a).2 ∧
      shrinkAllocates ((shrink true a).2) = false := by
  obtain ⟨h1, h2⟩ := h
  by_cases hc : a.mCount < a.mCapacity
  · have hs : (shrink true a).2 = (reallocate true a a.mCount).2 := by
      unfold shrink
      rw [if_pos hc]
    by_cases hz : a.mCount = 0
    · have hb : a.hasBuffer = true := h2.mpr (by omega)
      have hr : (reallocate true a a.mCount).2 =
          { buf := [], mCount := 0, mCapacity := 0, hasBuffer := false } := by
        unfold reallocate cleanup
        rw [if_neg (by omega), if_pos hz, hb]
        simp
      rw [hs, hr]
      refine ⟨fun _ => ?_, fun hnc => absurd hc hnc, ?_, ?_⟩
      · show (0 : Nat) = a.mCount
        omega
      · unfold shrink
        simp
      · rfl
    · have hr : (reallocate true a a.mCount).2 =
          { buf := a.buf.take (min a.mCount a.mCount) ++
              List.replicate (a.mCount - min a.mCount a.mCount) default
            mCount := min a.mCount a.mCount
            mCapacity := a.mCount
            hasBuffer := true } := by
        unfold reallocate
        rw [if_neg (by omega), if_neg (by omega)]
        split
        next hfalse => cases hfalse
        · rfl
      rw [hs, hr]
      refine ⟨fun _ => rfl, fun hnc => absurd hc hnc, ?_, ?_⟩
      · unfold shrink
        rw [if_neg (by show ¬ min a.mCount a.mCount < a.mCount; omega)]
      · unfold shrinkAllocates
        simp only [Bool.and_eq_false_iff, decide_eq_false_iff_not]
        left
        show ¬ min a.mCount a.mCount < a.mCount
        omega
  · have hs : (shrink true a).2 = a := by
      unfold shrink
      rw [if_neg hc]
    rw [hs]
    refine ⟨fun hlt => absurd hlt hc, fun _ => rfl, hs, ?_⟩
    unfold shrinkAllocates
    simp only [Bool.and_eq_false_iff, decide_eq_false_iff_not]
    exact Or.inl hc

/-- Witness for C8: `Array(3)` (capacity `3`, count `0`) shrinks to
capacity `0`; a second `Shrink` changes nothing and allocates nothing. -/
theorem C8_shrink_idempotent_witness :
    ((mkSized 3 : CppArray Nat).mCount < (mkSized 3 : CppArray Nat).mCapacity →
        ((shrink true (mkSized 3 : CppArray Nat)).2).mCapacity
          = (mkSized 3 : CppArray Nat).mCount) ∧
      (¬ (mkSized 3 : CppArray Nat).mCount < (mkSized 3 : CppArray Nat).mCapacity →
        (shrink true (mkSized 3 : CppArray Nat)).2 = mkSized 3) ∧
      (shrink true ((shrink true (mkSized 3 : CppArray Nat)).2)).2
          = (shrink true (mkSized 3 : CppArray Nat)).2 ∧
      shrinkAllocates ((shrink true (mkSized 3 : CppArray Nat)).2) = false :=
  C8_shrink_idempotent (mkSized 3) ⟨by decide, by decide⟩
theorem findPos_spec [DecidableEq α] (v : α) (l : List α) :
    (findPos v l = none ∧ ∀ (i : Nat), l[i]? ≠ some v) ∨
      (∃ i, findPos v l = some i ∧ l[i]? = some v ∧ ∀ (j : Nat), j < i → l[j]? ≠ some v) := by
  induction l with
  | nil =>
    left
    exact ⟨rfl, fun i => by simp⟩
  | cons x xs ih =>
    have hunf : findPos v (x :: xs) = if x = v then some 0 else (findPos v xs).map (· + 1) :=
      rfl
    by_cases hx : x = v
    · right
      refine ⟨0, ?_, ?_, fun j hj => absurd hj (by omega)⟩
      · rw [hunf, if_pos hx]
      · rw [List.getElem?_cons_zero, hx]
    · rw [hunf, if_neg hx]
      rcases ih with ⟨hnone, hall⟩ | ⟨i, hfi, hget, hmin⟩
      · left
        refine ⟨by rw [hnone]; rfl, fun i => ?_⟩
        cases i with
        | zero => simpa using hx
        | succ i => simpa using hall i
      · right
        refine ⟨i + 1, by rw [hfi]; rfl, by simpa using hget, fun j hj => ?_⟩
        cases j with
        | zero => simpa using hx
        | succ j => simpa using hmin j (by omega)

theorem findPos_lt_length [DecidableEq α] {v : α} {l : List α} {i : Nat}
    (h : findPos v l = some i) : i < l.length := by
  rcases findPos_spec v l with ⟨hnone, -⟩ | ⟨i2, hfi, hget, -⟩
  · rw [hnone] at h
    cases h
  · rw [hfi] at h
    obtain rfl : i2 = i := Option.some.inj h
    rcases List.getElem?_eq_some.mp hget with ⟨hlt, -⟩
    exact hlt

theorem findPos_append [DecidableEq α] (v : α) (l1 l2 : List α) (h : v ∉ l1) :
    findPos v (l1 ++ v :: l2) = some l1.length := by
  induction l1 with
  | nil =>
    show findPos v (v :: l2) = some 0
    show (if v = v then some 0 else (findPos v l2).map (· + 1)) = some 0
    rw [if_pos rfl]
  | cons x xs ih =>
    have hx : ¬ x = v := fun he => h (he ▸ List.mem_cons_self x xs)
    show findPos v (x :: (xs ++ v :: l2)) = some (xs.length + 1)
    show (if x = v then some 0 else (findPos v (xs ++ v :: l2)).map (· + 1))
      = some (xs.length + 1)
    rw [if_neg hx, ih (fun hm => h (List.mem_cons_of_mem x hm))]
    rfl

theorem findLastLoop_spec [Inhabited α] [DecidableEq α] (a : CppArray α) (v : α) (m : Nat) :
    (findLastLoop a v m = INDEX_NONE ∧ ∀ (j : Nat), j < m → slot a j ≠ v) ∨
      (∃ j, findLastLoop a v m = j ∧ j < m ∧ slot a j = v ∧
        ∀ (k : Nat), j < k → k < m → slot a k ≠ v) := by
  induction m with
  | zero =>
    left
    exact ⟨rfl, fun j hj => absurd hj (by omega)⟩
  | succ m ih =>
    have hunf : findLastLoop a v (m + 1)
        = if slot a m = v then m else findLastLoop a v m := rfl
    by_cases hm : slot a m = v
    · right
      exact ⟨m, by rw [hunf, if_pos hm], by omega, hm,
        fun k hk1 hk2 => absurd hk1 (by omega)⟩
    · rw [hunf, if_neg hm]
      rcases ih with ⟨hnone, hall⟩ | ⟨j, hfj, hjm, hjv, hmax⟩
      · left
        refine ⟨hnone, fun j hj => ?_⟩
        by_cases hje : j = m
        · rw [hje]
          exact hm
        · exact hall j (by omega)
      · right
        refine ⟨j, hfj, by omega, hjv, fun k hk1 hk2 => ?_⟩
        by_cases hke : k = m
        · rw [hke]
          exact hm
        · exact hmax k hk1 (by omega)

theorem elems_length {a : CppArray α} (hwf : WF a) : (elems a).length = a.mCount := by
  obtain ⟨h1, h2, -⟩ := hwf
  simp only [elems, List.length_take]
  omega

theorem elems_getElem?_eq_slot [Inhabited α] {a : CppArray α} (hwf : WF a) {j : Nat}
    (hj : j < a.mCount) : (elems a)[j]? = some (slot a j) := by
  obtain ⟨h1, h2, -⟩ := hwf
  have hjl : j < a.buf.length := by omega
  rw [elems, List.getElem?_take, if_pos hj, slot, List.getD_eq_getElem?_getD,
    List.getElem?_eq_getElem hjl]
  rfl
theorem ensureCapacity_true_fst [Inhabited α] (a : CppArray α) (m : Nat) :
    (ensureCapacity true a m).1 = none := by
  unfold ensureCapacity
  split
  · exact reallocate_true_fst a _
  · rfl

theorem ensureCapacity_none_wf [Inhabited α] {ok : Bool} {a a1 : CppArray α} {m : Nat}
    (hwf : WF a) (hm : a.mCount ≤ m) (h : ensureCapacity ok a m = (none, a1)) :
    WF a1 ∧ a1.mCount = a.mCount ∧ m ≤ a1.mCapacity ∧
      a1.buf.take a.mCount = a.buf.take a.mCount := by
  obtain ⟨hw1, hw2, hw3⟩ := hwf
  unfold ensureCapacity at h
  split at h
  case isTrue hlt =>
    have hg := le_grownCapacity a m
    have he := reallocate_none_of_lt (lt_of_lt_of_le hlt hg) h
    subst he
    have hmin : min a.mCount (grownCapacity a m) = a.mCount := by omega
    refine ⟨⟨?_, ?_, ?_⟩, hmin, hg, ?_⟩
    · show (a.buf.take (min a.mCount (grownCapacity a m)) ++
          List.replicate (grownCapacity a m - min a.mCount (grownCapacity a m))
            default).length = grownCapacity a m
      rw [List.length_append, List.length_take, List.length_replicate]
      omega
    · show min a.mCount (grownCapacity a m) ≤ grownCapacity a m
      omega
    · show true = true ↔ 0 < grownCapacity a m
      simp only [true_iff]
      omega
    · show (a.buf.take (min a.mCount (grownCapacity a m)) ++
          List.replicate (grownCapacity a m - min a.mCount (grownCapacity a m))
            default).take a.mCount = a.buf.take a.mCount
      rw [hmin, List.take_append_eq_append_take, List.take_take, Nat.min_self]
      have hlen : (a.buf.take a.mCount).length = a.mCount := by
        rw [List.length_take]
        omega
      rw [hlen, Nat.sub_self, List.take_zero, List.append_nil]
  case isFalse hge =>
    obtain ⟨-, h2⟩ := (Prod.mk.injEq ..).mp h
    rw [← h2]
    exact ⟨⟨hw1, hw2, hw3⟩, rfl, by omega, rfl⟩

theorem setSlots_singleton_take (L B : List α) (n p : Nat) (v : α)
    (hp : p < n) (hn : n + 1 ≤ L.length) (hBlen : B.length = L.length)
    (h1 : ∀ (i : Nat), i < p → B[i]? = L[i]?)
    (h2 : ∀ (i : Nat), p < i → i < n → B[i]? = L[i - 1]?)
    (h3 : B[n]? = L[n - 1]?) :
    (setSlots B p [v]).take (n + 1) = (L.take n).take p ++ v :: (L.take n).drop p := by
  have hsb : p + [v].length ≤ B.length := by
    rw [show [v].length = 1 from rfl]
    omega
  have hR : (L.take n).take p = L.take p := by
    rw [List.take_take]
    congr 1
    omega
  rw [hR]
  have hPlen : (L.take p).length = p := by
    rw [List.length_take]
    omega
  have hXlen : (L.take n).length = n := by
    rw [List.length_take]
    omega
  apply List.ext_getElem?
  intro i
  by_cases hi0 : i < n + 1
  · rw [List.getElem?_take, if_pos hi0, setSlots_getElem? B [v] p i hsb,
      show p + [v].length = p + 1 from rfl, List.getElem?_append, hPlen]
    by_cases hip : i < p
    · rw [if_pos hip, if_pos hip, h1 i hip, List.getElem?_take, if_pos (by omega)]
    · rw [if_neg hip, if_neg hip]
      by_cases hieq : i = p
      · subst hieq
        rw [if_pos (show i < i + 1 by omega), Nat.sub_self, List.getElem?_cons_zero,
          List.getElem?_cons_zero]
      · rw [if_neg (show ¬ i < p + 1 by omega),
          show i - p = (i - p - 1) + 1 by omega, List.getElem?_cons_succ,
          List.getElem?_drop, List.getElem?_take,
          show p + (i - p - 1) = i - 1 by omega, if_pos (show i - 1 < n by omega)]
        by_cases hin : i < n
        · exact h2 i (by omega) hin
        · rw [show i = n by omega]
          exact h3
  · rw [List.getElem?_take, if_neg hi0]
    symm
    apply List.getElem?_eq_none
    rw [List.length_append, hPlen, List.length_cons, List.length_drop, hXlen]
    omega

theorem insert_shift_take [Inhabited α] (L : List α) (n p : Nat) (v : α)
    (hp : p ≤ n) (hn : n + 1 ≤ L.length) :
    (setSlots (if p < n then
        setSlots (setSlots L n (readSlots L (n - 1) 1)) (p + 1)
          (readSlots (setSlots L n (readSlots L (n - 1) 1)) p (n - 1 - p))
      else L) p [v]).take (n + 1)
      = (L.take n).take p ++ v :: (L.take n).drop p := by
  by_cases hpn : p < n
  · rw [if_pos hpn]
    have hrs1 : (readSlots L (n - 1) 1).length = 1 := readSlots_length (by omega)
    have hblen : (setSlots L n (readSlots L (n - 1) 1)).length = L.length :=
      setSlots_length (by omega)
    have hbLt : ∀ (i : Nat), i < n → (setSlots L n (readSlots L (n - 1) 1))[i]? = L[i]? := by
      intro i hi
      rw [setSlots_getElem? L (readSlots L (n - 1) 1) n i (by omega), if_pos hi]
    have hbAt : (setSlots L n (readSlots L (n - 1) 1))[n]? = L[n - 1]? := by
      rw [setSlots_getElem? L (readSlots L (n - 1) 1) n n (by omega), if_neg (by omega), hrs1,
        if_pos (by omega), Nat.sub_self, readSlots_getElem?, if_pos (by omega), Nat.add_zero]
    have hrs2 : (readSlots (setSlots L n (readSlots L (n - 1) 1)) p (n - 1 - p)).length
        = n - 1 - p := readSlots_length (by omega)
    have hcond1 : p + 1 +
        (readSlots (setSlots L n (readSlots L (n - 1) 1)) p (n - 1 - p)).length
        ≤ (setSlots L n (readSlots L (n - 1) 1)).length := by omega
    refine setSlots_singleton_take L _ n p v hpn hn ?_ ?_ ?_ ?_
    · rw [setSlots_length hcond1, hblen]
    · intro i hi
      rw [setSlots_getElem? _ _ _ _ hcond1, if_pos (show i < p + 1 by omega)]
      exact hbLt i (by omega)
    · intro i hi1 hi2
      rw [setSlots_getElem? _ _ _ _ hcond1, if_neg (show ¬ i < p + 1 by omega), hrs2,
        if_pos (show i < p + 1 + (n - 1 - p) by omega), readSlots_getElem?,
        if_pos (show i - (p + 1) < n - 1 - p by omega),
        show p + (i - (p + 1)) = i - 1 by omega]
      exact hbLt (i - 1) (by omega)
    · rw [setSlots_getElem? _ _ _ _ hcond1, if_neg (show ¬ n < p + 1 by omega), hrs2,
        if_neg (show ¬ n < p + 1 + (n - 1 - p) by omega)]
      exact hbAt
  · obtain rfl : p = n := by omega
    rw [if_neg hpn]
    have hPlen : (L.take p).length = p := by
      rw [List.length_take]
      omega
    have hD : (L.take p).drop p = [] := List.drop_eq_nil_of_le (by omega)
    have hTT : (L.take p).take p = L.take p := by
      rw [List.take_take, Nat.min_self]
    rw [hTT, hD]
    show ((L.take p ++ [v]) ++ L.drop (p + 1)).take (p + 1) = L.take p ++ v :: []
    have hXVlen : (L.take p ++ [v]).length = p + 1 := by
      rw [List.length_append, hPlen]
      rfl
    rw [List.take_append_eq_append_take, ← hXVlen, List.take_length, Nat.sub_self,
      List.take_zero, List.append_nil]
theorem emplaceAt_true_spec [Inhabited α] {a : CppArray α} (hwf : WF a) {p : Nat}
    (hp : p ≤ a.mCount) (v : α) :
    (emplaceAt true a p v).1 = none ∧
      elems (emplaceAt true a p v).2 = (elems a).take p ++ v :: (elems a).drop p := by
  rcases hec : ensureCapacity true a (a.mCount + 1) with ⟨e, a1⟩
  have hfst := ensureCapacity_true_fst a (a.mCount + 1)
  rw [hec] at hfst
  obtain rfl : e = none := hfst
  obtain ⟨hwf1, hcnt, hcap, htake⟩ := ensureCapacity_none_wf hwf (Nat.le_succ _) hec
  obtain ⟨hL, hc1, -⟩ := hwf1
  have hred : emplaceAt true a p v = (none,
      { a1 with
        buf := setSlots (if p < a1.mCount then
            setSlots (setSlots a1.buf a1.mCount (readSlots a1.buf (a1.mCount - 1) 1))
              (p + 1)
              (readSlots (setSlots a1.buf a1.mCount (readSlots a1.buf (a1.mCount - 1) 1)) p
                (a1.mCount - 1 - p))
          else a1.buf) p [v]
        mCount := a1.mCount + 1 }) := by
    unfold emplaceAt
    rw [if_neg (by omega), hec]
  rw [hred]
  refine ⟨rfl, ?_⟩
  have helems : elems a = a1.buf.take a1.mCount := by
    rw [elems, ← htake, hcnt]
  rw [helems]
  show (setSlots (if p < a1.mCount then
      setSlots (setSlots a1.buf a1.mCount (readSlots a1.buf (a1.mCount - 1) 1))
        (p + 1)
        (readSlots (setSlots a1.buf a1.mCount (readSlots a1.buf (a1.mCount - 1) 1)) p
          (a1.mCount - 1 - p))
    else a1.buf) p [v]).take (a1.mCount + 1)
    = (a1.buf.take a1.mCount).take p ++ v :: (a1.buf.take a1.mCount).drop p
  exact insert_shift_take a1.buf a1.mCount p v (by omega) (by omega)

/-- Claim C9: `Find` returns the smallest index whose element equals the
value and `FindLast` the largest; when no element matches, both return the
sentinel `INDEX_NONE` (the maximum `size_t` value) rather than an error;
and after inserting an absent value at position `p`, `Find` returns `p`. -/
theorem C9_find_contract [Inhabited α] [DecidableEq α] (a : CppArray α) (v : α) (hwf : WF a) :
    (v ∈ elems a →
        (elems a)[find a v]? = some v ∧
          ∀ (j : Nat), j < find a v → (elems a)[j]? ≠ some v) ∧
      (v ∈ elems a →
        (elems a)[findLast a v]? = some v ∧
          ∀ (j : Nat), findLast a v < j → (elems a)[j]? ≠ some v) ∧
      (v ∉ elems a → find a v = INDEX_NONE ∧ findLast a v = INDEX_NONE) ∧
      (v ∉ elems a → ∀ p ≤ a.mCount, find (emplaceAt true a p v).2 v = p) := by
  refine ⟨?_, ?_, ?_, ?_⟩
  · intro hmem
    rcases findPos_spec v (elems a) with ⟨hnone, hall⟩ | ⟨i, hfi, hget, hmin⟩
    · obtain ⟨i, hi⟩ := List.mem_iff_getElem?.mp hmem
      exact absurd hi (hall i)
    · have hfind : find a v = i := by
        unfold find
        rw [hfi]
      exact hfind ▸ ⟨hget, hmin⟩
  · intro hmem
    obtain ⟨i, hi⟩ := List.mem_iff_getElem?.mp hmem
    obtain ⟨hlt, -⟩ := List.getElem?_eq_some.mp hi
    rw [elems_length hwf] at hlt
    have hslot : slot a i = v := by
      have hh := elems_getElem?_eq_slot hwf hlt
      rw [hh] at hi
      exact Option.some.inj hi
    rcases findLastLoop_spec a v a.mCount with ⟨hnone, hall⟩ | ⟨j, hfj, hjc, hjv, hmax⟩
    · exact absurd hslot (hall i hlt)
    · rw [show findLast a v = findLastLoop a v a.mCount from rfl, hfj]
      refine ⟨by rw [elems_getElem?_eq_slot hwf hjc, hjv], fun j2 hgt => ?_⟩
      by_cases hj2 : j2 < a.mCount
      · rw [elems_getElem?_eq_slot hwf hj2]
        intro he
        exact hmax j2 hgt hj2 (Option.some.inj he)
      · rw [List.getElem?_eq_none (by rw [elems_length hwf]; omega)]
        simp
  · intro habs
    constructor
    · rcases findPos_spec v (elems a) with ⟨hnone, -⟩ | ⟨i, hfi, hget, -⟩
      · unfold find
        rw [hnone]
      · exact absurd (List.mem_iff_getElem?.mpr ⟨i, hget⟩) habs
    · rcases findLastLoop_spec a v a.mCount with ⟨hnone, -⟩ | ⟨j, hfj, hjc, hjv, -⟩
      · rw [show findLast a v = findLastLoop a v a.mCount from rfl, hnone]
      · have : (elems a)[j]? = some v := by
          rw [elems_getElem?_eq_slot hwf hjc, hjv]
        exact absurd (List.mem_iff_getElem?.mpr ⟨j, this⟩) habs
  · intro habs p hp
    obtain ⟨-, helems⟩ := emplaceAt_true_spec hwf hp v
    have hnotin : v ∉ (elems a).take p := fun hm => habs (List.take_subset p (elems a) hm)
    have happ := findPos_append v ((elems a).take p) ((elems a).drop p) hnotin
    unfold find
    rw [helems, happ]
    show ((elems a).take p).length = p
    rw [List.length_take, elems_length hwf]
    omega
/-- Witness for C9 on the concrete array `[1, 2, 3]` and value `2`. -/
theorem C9_find_contract_witness :
    (2 ∈ elems (ofIlist [1, 2, 3] : CppArray Nat) →
        (elems (ofIlist [1, 2, 3] : CppArray Nat))[find (ofIlist [1, 2, 3]) 2]? = some 2 ∧
          ∀ (j : Nat), j < find (ofIlist [1, 2, 3]) 2 →
            (elems (ofIlist [1, 2, 3] : CppArray Nat))[j]? ≠ some 2) ∧
      (2 ∈ elems (ofIlist [1, 2, 3] : CppArray Nat) →
        (elems (ofIlist [1, 2, 3] : CppArray Nat))[findLast (ofIlist [1, 2, 3]) 2]?
            = some 2 ∧
          ∀ (j : Nat), findLast (ofIlist [1, 2, 3]) 2 < j →
            (elems (ofIlist [1, 2, 3] : CppArray Nat))[j]? ≠ some 2) ∧
      (2 ∉ elems (ofIlist [1, 2, 3] : CppArray Nat) →
        find (ofIlist [1, 2, 3]) 2 = INDEX_NONE ∧
          findLast (ofIlist [1, 2, 3]) 2 = INDEX_NONE) ∧
      (2 ∉ elems (ofIlist [1, 2, 3] : CppArray Nat) →
        ∀ p ≤ (ofIlist [1, 2, 3] : CppArray Nat).mCount,
          find (emplaceAt true (ofIlist [1, 2, 3]) p 2).2 2 = p) :=
  C9_find_contract (ofIlist [1, 2, 3]) 2 ⟨rfl, by decide, by decide⟩
end Abouttt
